import Mathlib

/-!
# Verification of the audio segmentation / transcription stitching pipeline

Shallow embedding of `src/scripts/transcribeAudio.ts`.

Timestamps are modelled as exact rational seconds (`ℚ`).  VTT cue documents
are modelled at the cue level: a parsed transcription is a `List Cue`, where
the source works on the textual WEBVTT representation and recovers exactly
the cue list via its timestamp regular expression.  The structured (JSON)
shape is modelled by `TranscriptionResponse`, mirroring the TypeScript
interface of the same name.
-/

namespace TranscribeAudio

/-- `MAX_FILE_SIZE = 25 * 1024 * 1024` (bytes), from the source constants. -/
def MAX_FILE_SIZE : ℕ := 25 * 1024 * 1024

/-- `SEGMENT_DURATION = 10 * 60 * 1000` (milliseconds), from the source constants. -/
def SEGMENT_DURATION : ℚ := 10 * 60 * 1000

/-- `SEGMENT_OVERLAP = 20 * 1000` (milliseconds), from the source constants. -/
def SEGMENT_OVERLAP : ℚ := 20 * 1000

/-- One WEBVTT cue: start/end timestamps (seconds) and its text block.
The `end` field is renamed `endT` (`end` is a Lean keyword). -/
structure Cue where
  startT : ℚ
  endT : ℚ
  text : String
deriving Repr, DecidableEq

/-- Shift both timestamps of a cue by a global offset, as the stitcher does
when it rewrites `timestampMatch` with `startTime`/`endTime`. -/
def shiftCue (off : ℚ) (c : Cue) : Cue :=
  { c with startT := c.startT + off, endT := c.endT + off }

/-- The keep condition of `combineVTTTranscriptions`:
`i === 0 || startTime >= timeOffset + SEGMENT_OVERLAP / 1000`
where `startTime = parseVTTTimestamp(..) + timeOffset`. -/
def keepVTTCue (i : ℕ) (timeOffset : ℚ) (c : Cue) : Bool :=
  i == 0 || decide (c.startT + timeOffset ≥ timeOffset + SEGMENT_OVERLAP / 1000)

/-- The loop of `combineVTTTranscriptions`: for each transcription `i`,
keep the cues passing `keepVTTCue`, emit them with shifted timestamps, then
advance `timeOffset` by `SEGMENT_DURATION / 1000 - SEGMENT_OVERLAP / 1000`.
Also returns the final `timeOffset` so that the running offset state is
observable. -/
def combineVTTAux : ℕ → ℚ → List (List Cue) → List Cue × ℚ
  | _, timeOffset, [] => ([], timeOffset)
  | i, timeOffset, t :: rest =>
      let kept := (t.filter (keepVTTCue i timeOffset)).map (shiftCue timeOffset)
      let next :=
        combineVTTAux (i + 1)
          (timeOffset + (SEGMENT_DURATION / 1000 - SEGMENT_OVERLAP / 1000)) rest
      (kept ++ next.1, next.2)

/-- `combineVTTTranscriptions`, at the cue level. -/
def combineVTTTranscriptions (ts : List (List Cue)) : List Cue :=
  (combineVTTAux 0 0 ts).1

/-- The `timeOffset` value after the whole VTT combining loop. -/
def combineVTTFinalOffset (ts : List (List Cue)) : ℚ :=
  (combineVTTAux 0 0 ts).2

/-- The `Word` interface of the source. -/
structure Word where
  word : String
  start : ℚ
  endT : ℚ
deriving Repr, DecidableEq

/-- One element of the `segments` array of a `TranscriptionResponse`. -/
structure SegmentEntry where
  id : ℤ
  start : ℚ
  endT : ℚ
  text : String
deriving Repr, DecidableEq

/-- The `TranscriptionResponse` interface of the source. -/
structure TranscriptionResponse where
  text : String
  words : List Word
  segments : List SegmentEntry
deriving Repr, DecidableEq

/-- Timestamp shifting of a word, as in `combineJSONTranscriptions`. -/
def shiftWord (off : ℚ) (w : Word) : Word :=
  { w with start := w.start + off, endT := w.endT + off }

/-- Timestamp shifting of a segment entry, as in `combineJSONTranscriptions`. -/
def shiftSegmentEntry (off : ℚ) (s : SegmentEntry) : SegmentEntry :=
  { s with start := s.start + off, endT := s.endT + off }

/-- The loop of `combineJSONTranscriptions`.  Each iteration appends
`data.text + ' '` to the combined text, appends ALL words and segment
entries with timestamps shifted by the current `timeOffset`, and then sets
`timeOffset = data.segments[data.segments.length - 1].end`.  When
`data.segments` is empty the source dereferences `undefined` and throws a
`TypeError`, modelled by `none`.  Returns the combined response together
with the final `timeOffset`. -/
def combineJSONAux : ℚ → TranscriptionResponse → List TranscriptionResponse →
    Option (TranscriptionResponse × ℚ)
  | timeOffset, combined, [] => some (combined, timeOffset)
  | timeOffset, combined, data :: rest =>
      let combined' : TranscriptionResponse :=
        { text := combined.text ++ data.text ++ " "
          words := combined.words ++ data.words.map (shiftWord timeOffset)
          segments :=
            combined.segments ++ data.segments.map (shiftSegmentEntry timeOffset) }
      match data.segments.getLast? with
      | none => none
      | some lastSeg => combineJSONAux lastSeg.endT combined' rest

/-- `combineJSONTranscriptions`: fold the loop from `timeOffset = 0` and the
empty accumulator `{text := '', words := [], segments := []}`. -/
def combineJSONTranscriptions (ts : List TranscriptionResponse) :
    Option TranscriptionResponse :=
  (combineJSONAux 0 ⟨"", [], []⟩ ts).map (·.1)

/-- A segment descriptor: the `setStartTime` value and the effective clip
length (`setDuration` is `SEGMENT_DURATION/1000`, truncated at the end of
the input by ffmpeg). -/
structure SegmentDescriptor where
  startOffset : ℚ
  length : ℚ
deriving Repr, DecidableEq

/-- Number of iterations of the `while (currentTime < duration)` loop of
`splitAudioFile`: `currentTime` takes the values `i * segLen`, so the loop
body runs exactly for `i < ⌈duration / segLen⌉`. -/
def numSegments (duration segLen : ℚ) : ℕ := (⌈duration / segLen⌉).toNat

/-- The segment descriptors produced by `splitAudioFile`, parameterised by
the policy (the source fixes `segLen = SEGMENT_DURATION/1000 = 600` and
`overlap = SEGMENT_OVERLAP/1000 = 20`).  Iteration `i` extracts from
`startTime = max(0, i*segLen - overlap)` a clip of nominal length `segLen`,
truncated at the total duration. -/
def splitAudioDescriptors (duration segLen overlap : ℚ) : List SegmentDescriptor :=
  (List.range (numSegments duration segLen)).map fun (i : ℕ) =>
    let startTime := max 0 ((i : ℚ) * segLen - overlap)
    { startOffset := startTime, length := min segLen (duration - startTime) }

/-! ## TimeCodec: `parseVTTTimestamp` and `formatVTTTimestamp` -/

/-- `parseVTTTimestamp` splits the timestamp string on `:` and converts the
three fields with `Number` (the third field carries the fractional `.mmm`
part).  The string is represented here by its three colon-separated numeric
field values. -/
def parseVTTTimestamp (hours minutes seconds : ℚ) : ℚ :=
  hours * 3600 + minutes * 60 + seconds

/-- JavaScript truncating division, used by the `%` operator. -/
def jsTrunc (x : ℚ) : ℤ := if 0 ≤ x then ⌊x⌋ else ⌈x⌉

/-- The JavaScript `%` operator on numbers: `a - b * trunc (a / b)`. -/
def jsMod (a b : ℚ) : ℚ := a - b * jsTrunc (a / b)

/-- `n.toString().padStart(2, '0')` for a natural number. -/
def padStart2 (n : ℕ) : String :=
  if (toString n).length < 2 then "0" ++ toString n else toString n

/-- Render a natural number below 1000 with exactly three digits (the
fraction part produced by `toFixed(3)`). -/
def pad3 (n : ℕ) : String :=
  if n < 10 then "00" ++ toString n
  else if n < 100 then "0" ++ toString n
  else toString n

/-- `x.toFixed(3)` for a nonnegative rational: round to the nearest
thousandth (ties away from zero, which for nonnegative values is rounding
up) and print with exactly three fraction digits. -/
def toFixed3 (q : ℚ) : String :=
  let n : ℕ := (⌊q * 1000 + 1 / 2⌋).toNat
  toString (n / 1000) ++ "." ++ pad3 (n % 1000)

/-- `s.padStart(6, '0')`. -/
def padStart6 (s : String) : String :=
  if s.length < 6 then String.mk (List.replicate (6 - s.length) '0') ++ s
  else s

/-- `formatVTTTimestamp`: hours and minutes by flooring, remaining seconds
by the JavaScript `%` operator, rendered as
`HH:MM:` followed by `remainingSeconds.toFixed(3).padStart(6, '0')`. -/
def formatVTTTimestamp (seconds : ℚ) : String :=
  let hours : ℕ := (⌊seconds / 3600⌋).toNat
  let minutes : ℕ := (⌊jsMod seconds 3600 / 60⌋).toNat
  let remainingSeconds : ℚ := jsMod seconds 60
  padStart2 hours ++ ":" ++ padStart2 minutes ++ ":" ++
    padStart6 (toFixed3 remainingSeconds)

/-! ## The transcription pipeline (`transcribeAudio`) -/

/-- Errors thrown by the `catch` block of `transcribeAudioSegment`. -/
inductive TrError where
  | badRequest (msg : String)
  | authFailed
  | rateLimited
  | failed (msg : String)
deriving Repr, DecidableEq

/-- The error mapping of the `catch` block of `transcribeAudioSegment`:
every service failure is rethrown as an error, classified by HTTP status. -/
def mapServiceError (status : ℕ) (msg : String) : TrError :=
  if status == 400 then .badRequest msg
  else if status == 401 then .authFailed
  else if status == 429 then .rateLimited
  else .failed msg

/-- `transcribeAudioSegment`: either the parsed service payload, or the
mapped error; a failed request never yields a transcript. -/
def transcribeAudioSegment {α : Type} (service : Except (ℕ × String) α) :
    Except TrError α :=
  match service with
  | .ok a => .ok a
  | .error (status, msg) => .error (mapServiceError status msg)

/-- A request to the transcription service: either the whole audio buffer
(small-file path) or the clip of segment `i`, with the prompt sent. -/
inductive Req where
  | whole (prompt : String)
  | segment (i : ℕ) (prompt : String)
deriving Repr, DecidableEq

/-- `extractTextFromVTT`, at the cue level: the lines that are neither
header, timestamp line nor blank are exactly the cue text lines; the
function joins them with single spaces and trims. -/
def extractTextFromVTT (cues : List Cue) : String :=
  ((cues.map Cue.text).foldl (fun acc t => acc ++ " " ++ t) "").trim

/-- `previousText.split(' ').slice(-50).join(' ')`: the last (at most) 50
space-separated words of the previous transcription text. -/
def lastContextWords (s : String) : String :=
  let ws := s.splitOn " "
  String.intercalate " " (ws.drop (ws.length - 50))

/-- The prompt sent for segment `i`: for each segment after the first, the
base prompt is extended with `" Previous context: "` and the last 50 words
of the previous transcription text (`extractText` is `extractTextFromVTT`
for the VTT format and the `text` field after `JSON.parse` for the JSON
format). -/
def segmentPromptFor {α : Type} (extractText : α → String) (prompt : String)
    (i : ℕ) (prev : Option α) : String :=
  match prev with
  | some pv =>
      if 0 < i then
        prompt ++ " Previous context: " ++ lastContextWords (extractText pv)
      else prompt
  | none => prompt

/-- The per-segment loop of `transcribeAudio` (both formats), generic in
the per-segment payload type.  Each segment is transcribed with the prompt
from `segmentPromptFor`; an error from the service propagates immediately.
Also returns the list of requests issued. -/
def transcribeSegmentsLoop {α : Type} (svc : Req → Except TrError α)
    (extractText : α → String) (prompt : String) :
    ℕ → Option α → List SegmentDescriptor →
      Except TrError (List α) × List Req
  | _, _, [] => (.ok [], [])
  | i, prev, _ :: rest =>
      let segmentPrompt := segmentPromptFor extractText prompt i prev
      match svc (.segment i segmentPrompt) with
      | .error e => (.error e, [.segment i segmentPrompt])
      | .ok payload =>
          let next :=
            transcribeSegmentsLoop svc extractText prompt (i + 1) (some payload) rest
          ((payload :: ·) <$> next.1, .segment i segmentPrompt :: next.2)

/-- `transcribeAudio` for the VTT format.  A buffer of at most
`MAX_FILE_SIZE` bytes is sent as a single whole-file request and its result
returned unchanged; a larger buffer is split, each segment transcribed
sequentially with context carry-over, and the results combined with
`combineVTTTranscriptions`. -/
def transcribeAudioVTT (svc : Req → Except TrError (List Cue))
    (byteLength : ℕ) (duration : ℚ) (prompt : String) :
    Except TrError (List Cue) × List Req :=
  if byteLength ≤ MAX_FILE_SIZE then
    (svc (.whole prompt), [.whole prompt])
  else
    let descs :=
      splitAudioDescriptors duration (SEGMENT_DURATION / 1000) (SEGMENT_OVERLAP / 1000)
    let r := transcribeSegmentsLoop svc extractTextFromVTT prompt 0 none descs
    (combineVTTTranscriptions <$> r.1, r.2)

/-- `transcribeAudio` for the JSON format.  Same structure as the VTT path;
the context text is the `text` field of the previous response.  The
combining step can throw a `TypeError` (a response with an empty `segments`
array), which aborts the run: this is the `.ok none` outcome. -/
def transcribeAudioJSON (svc : Req → Except TrError TranscriptionResponse)
    (byteLength : ℕ) (duration : ℚ) (prompt : String) :
    Except TrError (Option TranscriptionResponse) × List Req :=
  if byteLength ≤ MAX_FILE_SIZE then
    ((some <$> svc (.whole prompt) : Except TrError (Option TranscriptionResponse)),
      [.whole prompt])
  else
    let descs :=
      splitAudioDescriptors duration (SEGMENT_DURATION / 1000) (SEGMENT_OVERLAP / 1000)
    let r := transcribeSegmentsLoop svc TranscriptionResponse.text prompt 0 none descs
    (combineJSONTranscriptions <$> r.1, r.2)

/-! ## Temporary-file effects of `splitAudioFile` / `transcribeAudio` -/

/-- A file-system operation on the temporary directory. -/
inductive FsOp where
  | write (path : String)
  | remove (path : String)
deriving Repr, DecidableEq

/-- `join(tempDir, 'input.mp3')`, relative to the temp directory. -/
def inputPath : String := "input.mp3"

/-- `join(tempDir, 'segment-%d.mp3')` with `%d` replaced by the index. -/
def segmentPath (i : ℕ) : String := "segment-" ++ toString i ++ ".mp3"

/-- The temp-file operations performed by `splitAudioFile`: write the input
buffer; if the duration probe fails, remove the input file and reject;
otherwise create one segment file per loop iteration and finally remove the
input file.  Segment files are never removed. -/
def splitAudioFileTrace (duration : ℚ) (probeOk : Bool) : List FsOp :=
  if probeOk then
    .write inputPath ::
      ((List.range (numSegments duration (SEGMENT_DURATION / 1000))).map
        (fun i => FsOp.write (segmentPath i)) ++ [.remove inputPath])
  else [.write inputPath, .remove inputPath]

/-- The temp-file operations of a whole `transcribeAudio` run in the
splitting regime.  The transcription loop only reads the segment files and
the combining step touches no files, so the trace equals the splitting
trace whether every segment succeeds or the run aborts on a failed
segment (`svcOk = false`): no cleanup happens on either exit path. -/
def transcribeAudioTrace (duration : ℚ) (probeOk svcOk : Bool) : List FsOp :=
  splitAudioFileTrace duration probeOk

/-- Replay one file-system operation on the set of existing files. -/
def applyFsOp (files : List String) : FsOp → List String
  | .write p => if p ∈ files then files else files ++ [p]
  | .remove p => files.filter (· ≠ p)

/-- The files existing after replaying a trace on an empty directory. -/
def runFs (ops : List FsOp) : List String := ops.foldl applyFsOp []

/-! ## Derived notions used by the statements -/

/-- The value of `timeOffset` when `combineVTTTranscriptions` processes
transcription `i`: the loop adds `SEGMENT_DURATION/1000 -
SEGMENT_OVERLAP/1000` once per processed transcription. -/
def vttGlobalOffset (i : ℕ) : ℚ :=
  i * (SEGMENT_DURATION / 1000 - SEGMENT_OVERLAP / 1000)

/-- A point of the global timeline lies in one of the descriptor
intervals. -/
def coveredBy (descs : List SegmentDescriptor) (x : ℚ) : Prop :=
  ∃ s ∈ descs, s.startOffset ≤ x ∧ x < s.startOffset + s.length

/-- A well-formed per-clip cue track, as produced by the transcription
service for one extracted clip: every cue lies inside the clip window
`[0, SEGMENT_DURATION/1000]` with `start ≤ end`, and consecutive cues do
not overlap. -/
def WellFormedClip (t : List Cue) : Prop :=
  (∀ c ∈ t, 0 ≤ c.startT ∧ c.startT ≤ c.endT ∧ c.endT ≤ SEGMENT_DURATION / 1000) ∧
  t.Chain' (fun a b => a.endT ≤ b.startT)

/-! ## Theorems -/

/-- Evaluation rule for `numSegments`: the loop of `splitAudioFile` runs
`n` times exactly when `(n-1) * segLen < duration ≤ n * segLen`. -/
theorem numSegments_eq (d L : ℚ) (n : ℕ) (hL : 0 < L)
    (h1 : (n : ℚ) * L - L < d) (h2 : d ≤ n * L) : numSegments d L = n := by
  unfold numSegments
  rw [show ⌈d / L⌉ = (n : ℤ) by
    rw [Int.ceil_eq_iff]
    constructor
    · push_cast
      have h3 : ((n : ℚ) - 1) < d / L := by
        rw [lt_div_iff₀ hL]; nlinarith
      linarith
    · rw [div_le_iff₀ hL]
      push_cast
      linarith]
  exact Int.toNat_natCast n

/-- Every request issued by the per-segment loop is a segment request. -/
theorem loop_requests_segment {α : Type} (svc : Req → Except TrError α)
    (extractText : α → String) (prompt : String) :
    ∀ (descs : List SegmentDescriptor) (i : ℕ) (prev : Option α) (p : String),
      Req.whole p ∉ (transcribeSegmentsLoop svc extractText prompt i prev descs).2 := by
  intro descs
  induction descs with
  | nil => intro i prev p h; simp [transcribeSegmentsLoop] at h
  | cons d rest ih =>
      intro i prev p h
      simp only [transcribeSegmentsLoop] at h
      cases hsvc : svc (.segment i (segmentPromptFor extractText prompt i prev)) with
      | error e => rw [hsvc] at h; simp at h
      | ok payload =>
          rw [hsvc] at h
          simp only [List.mem_cons] at h
          rcases h with h | h
          · exact Req.noConfusion h
          · exact ih (i + 1) (some payload) p h

/-- Claim C1, counterexample: in the structured (JSON) shape no item is
ever discarded.  With a first segment whose last entry ends at local time
600 the running offset becomes 600, so the second segment word with
shifted start `605 < 600 + overlap = 620` must be discarded according to
the claim, yet it appears in the stitched output. -/
theorem C1_counterexample :
    (combineJSONTranscriptions
        [⟨"a", [], [⟨0, 0, 600, "a"⟩]⟩,
         ⟨"b", [⟨"w", 5, 10⟩], [⟨1, 0, 600, "b"⟩]⟩]).map
      TranscriptionResponse.words = some [⟨"w", 605, 610⟩] ∧
    (605 : ℚ) < 600 + SEGMENT_OVERLAP / 1000 := by
  norm_num [combineJSONTranscriptions, combineJSONAux, shiftWord,
    shiftSegmentEntry, SEGMENT_OVERLAP, List.getLast?]

/-- Claim C2, counterexample: in the cue-track shape the running offset
advances by the fixed amount `SEGMENT_DURATION/1000 - SEGMENT_OVERLAP/1000
= 580` regardless of content.  After a segment whose only (kept) cue ends
at local time 500, the offset is 580, not 500. -/
theorem C2_counterexample :
    combineVTTFinalOffset [[⟨0, 500, "a"⟩]] = 580 ∧ (580 : ℚ) ≠ 500 := by
  norm_num [combineVTTFinalOffset, combineVTTAux, SEGMENT_DURATION, SEGMENT_OVERLAP]

/-- Claim C3, counterexample: for `totalDuration = 1190`, `segmentLength =
600`, `overlap = 20` (satisfying the preconditions), the descriptors are
`{0,600}` and `{580,600}`, whose union ends at 1180: the point `1185 ∈
[0, 1190)` is covered by no descriptor, so the intervals do not cover
`[0, totalDuration)`. -/
theorem C3_counterexample :
    ((0 : ℚ) < 1190 ∧ (0 : ℚ) < 600 ∧ (0 : ℚ) ≤ 20 ∧ (20 : ℚ) < 600) ∧
    (0 : ℚ) ≤ 1185 ∧ (1185 : ℚ) < 1190 ∧
    ¬ coveredBy (splitAudioDescriptors 1190 600 20) 1185 := by
  have h : splitAudioDescriptors 1190 600 20 = [⟨0, 600⟩, ⟨580, 600⟩] := by
    rw [splitAudioDescriptors, numSegments_eq 1190 600 2 (by norm_num)
      (by norm_num) (by norm_num)]
    norm_num [List.range_succ, max_def, min_def]
  rw [h]
  norm_num [coveredBy]

/-- Claim C4, counterexample: stitching three structured responses, each a
single entry `[0, 600]` filling its clip, yields entries with start times
`0, 600, 600` and end times `600, 1200, 1200`: the start times are not
strictly increasing and the second entry ends 600 seconds after the third
one starts, far beyond any jitter epsilon (the offset is assigned the
LOCAL end of the previous response instead of being accumulated). -/
theorem C4_counterexample :
    (combineJSONTranscriptions
        [⟨"a", [], [⟨0, 0, 600, "a"⟩]⟩,
         ⟨"a", [], [⟨0, 0, 600, "a"⟩]⟩,
         ⟨"a", [], [⟨0, 0, 600, "a"⟩]⟩]).map
      TranscriptionResponse.segments =
        some [⟨0, 0, 600, "a"⟩, ⟨0, 600, 1200, "a"⟩, ⟨0, 600, 1200, "a"⟩] ∧
    ¬ ((1200 : ℚ) ≤ 600 + 599) ∧ ¬ ((600 : ℚ) < 600) := by
  norm_num [combineJSONTranscriptions, combineJSONAux, shiftWord,
    shiftSegmentEntry, List.getLast?]

/-- Claim C5, counterexample: for `totalDuration = 1500`, the Segmenter
starts segment 2 at `2*600 - 20 = 1180` (the overlap is taken against the
nominal boundary, not accumulated), so the descriptors are NOT
`{0,600},{580,600},{1160,340}`. -/
theorem C5_counterexample :
    splitAudioDescriptors 1500 (SEGMENT_DURATION / 1000) (SEGMENT_OVERLAP / 1000) ≠
      [⟨0, 600⟩, ⟨580, 600⟩, ⟨1160, 340⟩] := by
  have h : splitAudioDescriptors 1500 (SEGMENT_DURATION / 1000)
      (SEGMENT_OVERLAP / 1000) = [⟨0, 600⟩, ⟨580, 600⟩, ⟨1180, 320⟩] := by
    rw [splitAudioDescriptors,
      show SEGMENT_DURATION / 1000 = 600 by norm_num [SEGMENT_DURATION],
      numSegments_eq 1500 600 3 (by norm_num) (by norm_num) (by norm_num)]
    norm_num [List.range_succ, SEGMENT_OVERLAP, max_def, min_def]
  rw [h]
  intro hc
  have := congrArg (fun l => (l.getLast?).map SegmentDescriptor.startOffset) hc
  norm_num [List.getLast?] at this

/-- Claim C5, amended: the Segmenter yields `{0,600},{580,600},{1180,320}`,
the last clip 320 seconds long.  The synthetic transcriber of the scenario
returns one cue per 100 seconds of its own local clip (the text recording
the absolute source position of the cue, the final cue truncated at the
clip end): six cues for each 600-second clip, four for the 320-second one.
Stitching them yields 14 cues — not 15 — starting at 0 and ending at 1480
— not 1500 — with no duplicated cue text. -/
theorem C5_amended :
    splitAudioDescriptors 1500 (SEGMENT_DURATION / 1000) (SEGMENT_OVERLAP / 1000) =
      [⟨0, 600⟩, ⟨580, 600⟩, ⟨1180, 320⟩] ∧
    combineVTTTranscriptions
      [[⟨0, 100, "audio0"⟩, ⟨100, 200, "audio100"⟩, ⟨200, 300, "audio200"⟩,
        ⟨300, 400, "audio300"⟩, ⟨400, 500, "audio400"⟩, ⟨500, 600, "audio500"⟩],
       [⟨0, 100, "audio580"⟩, ⟨100, 200, "audio680"⟩, ⟨200, 300, "audio780"⟩,
        ⟨300, 400, "audio880"⟩, ⟨400, 500, "audio980"⟩, ⟨500, 600, "audio1080"⟩],
       [⟨0, 100, "audio1180"⟩, ⟨100, 200, "audio1280"⟩, ⟨200, 300, "audio1380"⟩,
        ⟨300, 320, "audio1480"⟩]] =
      [⟨0, 100, "audio0"⟩, ⟨100, 200, "audio100"⟩, ⟨200, 300, "audio200"⟩,
       ⟨300, 400, "audio300"⟩, ⟨400, 500, "audio400"⟩, ⟨500, 600, "audio500"⟩,
       ⟨680, 780, "audio680"⟩, ⟨780, 880, "audio780"⟩, ⟨880, 980, "audio880"⟩,
       ⟨980, 1080, "audio980"⟩, ⟨1080, 1180, "audio1080"⟩,
       ⟨1260, 1360, "audio1280"⟩, ⟨1360, 1460, "audio1380"⟩,
       ⟨1460, 1480, "audio1480"⟩] ∧
    ["audio0", "audio100", "audio200", "audio300", "audio400", "audio500",
      "audio680", "audio780", "audio880", "audio980", "audio1080",
      "audio1280", "audio1380", "audio1480"].Nodup := by
  refine ⟨?_, ?_, by decide⟩
  · rw [splitAudioDescriptors,
      show SEGMENT_DURATION / 1000 = 600 by norm_num [SEGMENT_DURATION],
      numSegments_eq 1500 600 3 (by norm_num) (by norm_num) (by norm_num)]
    norm_num [List.range_succ, SEGMENT_OVERLAP, max_def, min_def]
  · norm_num [combineVTTTranscriptions, combineVTTAux, keepVTTCue, shiftCue,
      SEGMENT_DURATION, SEGMENT_OVERLAP, List.filter_cons]

/-- Claim C6, counterexample: the stitched `text` field is the
concatenation of the per-clip `text` fields (each followed by a space),
not the join of the kept entries.  With per-clip texts `"a"` and `"X"` and
entry texts `"a"`, `"b"`, the output text is `"a X "` while the kept
entries joined with a space give `"a b"`. -/
theorem C6_counterexample :
    (combineJSONTranscriptions
        [⟨"a", [], [⟨0, 0, 1, "a"⟩]⟩, ⟨"X", [], [⟨1, 0, 1, "b"⟩]⟩]).map
      TranscriptionResponse.text = some "a X " ∧
    (combineJSONTranscriptions
        [⟨"a", [], [⟨0, 0, 1, "a"⟩]⟩, ⟨"X", [], [⟨1, 0, 1, "b"⟩]⟩]).map
      (fun r => String.intercalate " " (r.segments.map SegmentEntry.text)) =
      some "a b" ∧
    ("a X " : String) ≠ "a b" := by
  refine ⟨?_, ?_, by decide⟩ <;>
    norm_num [combineJSONTranscriptions, combineJSONAux, shiftWord,
      shiftSegmentEntry, List.getLast?] <;> rfl

/-- Claim C7, counterexample: after a run that split the audio (here a
1200-second source giving two segments), the extracted clip files are
still present — both after a fully successful run and after a run that
aborts on a failed transcription: `splitAudioFile` removes only the
temporary input file and nothing ever removes the segment files. -/
theorem C7_counterexample :
    segmentPath 0 ∈ runFs (transcribeAudioTrace 1200 true true) ∧
    segmentPath 1 ∈ runFs (transcribeAudioTrace 1200 true true) ∧
    segmentPath 0 ∈ runFs (transcribeAudioTrace 1200 true false) := by
  have h : numSegments 1200 (SEGMENT_DURATION / 1000) = 2 := by
    rw [show SEGMENT_DURATION / 1000 = 600 by norm_num [SEGMENT_DURATION]]
    exact numSegments_eq 1200 600 2 (by norm_num) (by norm_num) (by norm_num)
  simp only [transcribeAudioTrace, splitAudioFileTrace, h, if_true]
  decide

/-- Claim C9: a buffer of at most `MAX_FILE_SIZE` bytes is transcribed by
a single whole-buffer request whose result is returned unchanged, in both
output shapes; a larger buffer never issues a whole-buffer request. -/
theorem C9_confirmed (svcV : Req → Except TrError (List Cue))
    (svcJ : Req → Except TrError TranscriptionResponse)
    (byteLength : ℕ) (duration : ℚ) (prompt : String) :
    (byteLength ≤ MAX_FILE_SIZE →
      transcribeAudioVTT svcV byteLength duration prompt =
        (svcV (.whole prompt), [.whole prompt]) ∧
      transcribeAudioJSON svcJ byteLength duration prompt =
        (some <$> svcJ (.whole prompt), [.whole prompt])) ∧
    (MAX_FILE_SIZE < byteLength →
      ∀ p, Req.whole p ∉ (transcribeAudioVTT svcV byteLength duration prompt).2) := by
  constructor
  · intro h
    constructor <;> simp [transcribeAudioVTT, transcribeAudioJSON, h]
  · intro h p
    have hns : ¬ byteLength ≤ MAX_FILE_SIZE := by omega
    simp only [transcribeAudioVTT, if_neg hns]
    exact loop_requests_segment _ _ _ _ _ _ p

/-- The keep condition of the VTT stitcher does not depend on the running
offset: the offset appears on both sides of the comparison. -/
theorem keepVTTCue_eq (i : ℕ) (off : ℚ) (c : Cue) :
    keepVTTCue i off c =
      (decide (i = 0) || decide (SEGMENT_OVERLAP / 1000 ≤ c.startT)) := by
  have h : (c.startT + off ≥ off + SEGMENT_OVERLAP / 1000) ↔
      (SEGMENT_OVERLAP / 1000 ≤ c.startT) := by
    rw [ge_iff_le, add_comm off (SEGMENT_OVERLAP / 1000), add_le_add_iff_right]
  rcases Nat.eq_zero_or_pos i with hi | hi
  · subst hi; simp [keepVTTCue]
  · have hne : i ≠ 0 := Nat.pos_iff_ne_zero.mp hi
    unfold keepVTTCue
    rw [show (i == 0) = false by simp [hne],
      show decide (i = 0) = false by simp [hne],
      Bool.false_or, Bool.false_or, decide_eq_decide]
    exact h

/-- Closed form of the VTT combining loop: transcription number `p.1` (in
`enumFrom i`) is filtered with the offset-free keep condition and shifted
by `off` plus one nominal advance per earlier transcription. -/
theorem combineVTTAux_closed (ts : List (List Cue)) :
    ∀ (i : ℕ) (off : ℚ),
      (combineVTTAux i off ts).1 =
        (ts.enumFrom i).bind fun p =>
          (p.2.filter (keepVTTCue p.1 0)).map
            (shiftCue (off +
              (p.1 - i : ℕ) * (SEGMENT_DURATION / 1000 - SEGMENT_OVERLAP / 1000))) := by
  induction ts with
  | nil => intro i off; simp [combineVTTAux]
  | cons t rest ih =>
      intro i off
      simp only [combineVTTAux, List.enumFrom_cons, List.cons_bind]
      congr 1
      · rw [Nat.sub_self]
        push_cast
        rw [zero_mul, add_zero]
        exact congrArg _ (List.filter_congr fun c _ => by
          rw [keepVTTCue_eq, keepVTTCue_eq])
      · rw [ih (i + 1) (off + (SEGMENT_DURATION / 1000 - SEGMENT_OVERLAP / 1000))]
        apply List.bind_congr
        rintro ⟨k, t'⟩ hp
        have hip : i + 1 ≤ k := (List.mem_enumFrom hp).1
        have h1 : ((k - i : ℕ) : ℚ) = ((k - (i + 1) : ℕ) : ℚ) + 1 := by
          have hk : k - i = (k - (i + 1)) + 1 := by omega
          rw [hk]; push_cast; ring
        show _ = (t'.filter (keepVTTCue k 0)).map (shiftCue (off + _))
        rw [h1]
        have h2 : off + (SEGMENT_DURATION / 1000 - SEGMENT_OVERLAP / 1000) +
            (k - (i + 1) : ℕ) * (SEGMENT_DURATION / 1000 - SEGMENT_OVERLAP / 1000) =
            off + ((k - (i + 1) : ℕ) + 1) * (SEGMENT_DURATION / 1000 - SEGMENT_OVERLAP / 1000) := by
          ring
        rw [← h2]

/-- Claim C1, amended to the cue-track shape: the stitched cue track keeps,
for every transcription index `i`, exactly the cues of transcription `i`
whose shifted start time is at or after `globalOffset + overlap` (all cues
for `i = 0`), verbatim with shifted timestamps, where the global offset of
transcription `i` is `i * (SEGMENT_DURATION - SEGMENT_OVERLAP) / 1000`;
cues whose shifted start falls strictly before the threshold are
discarded.  (The structured shape discards nothing; see the
counterexample.) -/
theorem C1_amended (ts : List (List Cue)) :
    combineVTTTranscriptions ts =
      ts.enum.bind fun p =>
        (p.2.filter fun c =>
            decide (p.1 = 0) ||
              decide (vttGlobalOffset p.1 + SEGMENT_OVERLAP / 1000 ≤
                c.startT + vttGlobalOffset p.1)).map
          (shiftCue (vttGlobalOffset p.1)) := by
  rw [combineVTTTranscriptions, combineVTTAux_closed ts 0 0,
    show ts.enum = ts.enumFrom 0 from rfl]
  apply List.bind_congr
  intro p _
  have h1 : (0 : ℚ) + ((p.1 - 0 : ℕ) : ℚ) *
      (SEGMENT_DURATION / 1000 - SEGMENT_OVERLAP / 1000) = vttGlobalOffset p.1 := by
    rw [vttGlobalOffset, Nat.sub_zero]; ring
  rw [h1]
  refine congrArg _ (List.filter_congr fun c _ => ?_)
  rw [keepVTTCue_eq]
  have h2 : decide (SEGMENT_OVERLAP / 1000 ≤ c.startT) =
      decide (vttGlobalOffset p.1 + SEGMENT_OVERLAP / 1000 ≤
        c.startT + vttGlobalOffset p.1) :=
    decide_eq_decide.mpr (by
      rw [add_comm (vttGlobalOffset p.1) (SEGMENT_OVERLAP / 1000),
        add_le_add_iff_right])
  rw [h2]

/-- The final `timeOffset` of the VTT loop is the starting offset plus one
nominal advance per transcription. -/
theorem combineVTTAux_snd (ts : List (List Cue)) :
    ∀ (i : ℕ) (off : ℚ),
      (combineVTTAux i off ts).2 =
        off + ts.length * (SEGMENT_DURATION / 1000 - SEGMENT_OVERLAP / 1000) := by
  induction ts with
  | nil => intro i off; simp [combineVTTAux]
  | cons t rest ih =>
      intro i off
      simp only [combineVTTAux, ih, List.length_cons]
      push_cast
      ring

/-- If the JSON combining loop succeeds on a list ending in `t`, its final
`timeOffset` is the end time of the last entry of `t.segments`, in the
LOCAL time of `t` (the current offset is not added). -/
theorem combineJSONAux_last_offset :
    ∀ (ts : List TranscriptionResponse) (off : ℚ) (acc : TranscriptionResponse)
      (t : TranscriptionResponse) (r : TranscriptionResponse × ℚ),
      combineJSONAux off acc (ts ++ [t]) = some r →
      ∃ lastSeg, t.segments.getLast? = some lastSeg ∧ r.2 = lastSeg.endT := by
  intro ts
  induction ts with
  | nil =>
      intro off acc t r h
      simp only [List.nil_append, combineJSONAux] at h
      cases hl : t.segments.getLast? with
      | none => rw [hl] at h; exact absurd h (by simp)
      | some lastSeg =>
          rw [hl] at h
          simp only [combineJSONAux, Option.some.injEq] at h
          exact ⟨lastSeg, rfl, by rw [← h]⟩
  | cons d rest ih =>
      intro off acc t r h
      simp only [List.cons_append, combineJSONAux] at h
      cases hl : d.segments.getLast? with
      | none => rw [hl] at h; exact absurd h (by simp)
      | some lastSeg => rw [hl] at h; exact ih _ _ t r h

/-- Claim C2, amended: the cue-track offset after the whole loop equals one
nominal advance `(SEGMENT_DURATION - SEGMENT_OVERLAP)/1000` per processed
transcription, independent of any measured content; the structured offset
after the loop is the measured local end of the final response's last
segment entry. -/
theorem C2_amended :
    (∀ ts : List (List Cue),
      combineVTTFinalOffset ts =
        ts.length * (SEGMENT_DURATION / 1000 - SEGMENT_OVERLAP / 1000)) ∧
    (∀ (off : ℚ) (acc : TranscriptionResponse) (ts : List TranscriptionResponse)
        (t : TranscriptionResponse) (r : TranscriptionResponse × ℚ),
      combineJSONAux off acc (ts ++ [t]) = some r →
      ∃ lastSeg, t.segments.getLast? = some lastSeg ∧ r.2 = lastSeg.endT) := by
  constructor
  · intro ts
    rw [combineVTTFinalOffset, combineVTTAux_snd ts 0 0, zero_add]
  · intro off acc ts t r h
    exact combineJSONAux_last_offset ts off acc t r h

/-- Witness for C2 at concrete inputs: two cue transcriptions give a final
offset of `2 * 580 = 1160`, and a two-response structured run ends with
offset 7, the local end of the final response's single entry. -/
theorem C2_amended_witness :
    combineVTTFinalOffset [[⟨0, 500, "a"⟩], [⟨0, 480, "b"⟩]] =
      (2 : ℕ) * (SEGMENT_DURATION / 1000 - SEGMENT_OVERLAP / 1000) ∧
    ∃ lastSeg,
      (⟨"b", [], [⟨1, 2, 7, "b"⟩]⟩ : TranscriptionResponse).segments.getLast? =
        some lastSeg ∧
      (⟨⟨"a b ", [], [⟨0, 0, 5, "a"⟩, ⟨1, 7, 12, "b"⟩]⟩, (7 : ℚ)⟩ :
        TranscriptionResponse × ℚ).2 = lastSeg.endT :=
  ⟨C2_amended.1 [[⟨0, 500, "a"⟩], [⟨0, 480, "b"⟩]],
   C2_amended.2 0 ⟨"", [], []⟩ [⟨"a", [], [⟨0, 0, 5, "a"⟩]⟩] ⟨"b", [], [⟨1, 2, 7, "b"⟩]⟩
     ⟨⟨"a b ", [], [⟨0, 0, 5, "a"⟩, ⟨1, 7, 12, "b"⟩]⟩, 7⟩
     (by norm_num [combineJSONAux, shiftSegmentEntry, List.getLast?]; decide)⟩

/-- If the JSON combining loop succeeds, the accumulated `text` is the
starting text with every response text plus a trailing space appended. -/
theorem combineJSONAux_text :
    ∀ (ts : List TranscriptionResponse) (off : ℚ) (acc : TranscriptionResponse)
      (r : TranscriptionResponse × ℚ),
      combineJSONAux off acc ts = some r →
      r.1.text = ts.foldl (fun s t => s ++ t.text ++ " ") acc.text := by
  intro ts
  induction ts with
  | nil =>
      intro off acc r h
      simp only [combineJSONAux, Option.some.injEq] at h
      rw [← h]
      rfl
  | cons d rest ih =>
      intro off acc r h
      simp only [combineJSONAux] at h
      cases hl : d.segments.getLast? with
      | none => rw [hl] at h; exact absurd h (by simp)
      | some lastSeg =>
          rw [hl] at h
          exact ih _ _ r h

/-- Claim C6, amended: whenever the structured stitcher succeeds, the
output `text` is the concatenation of the per-clip service `text` fields,
each followed by a single space — it is not rebuilt from the kept segment
entries. -/
theorem C6_amended (ts : List TranscriptionResponse) :
    (combineJSONTranscriptions ts).map TranscriptionResponse.text =
      (combineJSONTranscriptions ts).map
        (fun _ => ts.foldl (fun s t => s ++ t.text ++ " ") "") := by
  rw [combineJSONTranscriptions]
  cases h : combineJSONAux 0 ⟨"", [], []⟩ ts with
  | none => rfl
  | some r =>
      have ht := combineJSONAux_text ts 0 ⟨"", [], []⟩ r h
      simp [ht]

/-- A file already present, or written by one of the write operations,
exists after replaying a list of writes. -/
theorem mem_foldl_writes (ps : List String) :
    ∀ (acc : List String) (p : String), p ∈ acc ∨ p ∈ ps →
      p ∈ List.foldl applyFsOp acc (ps.map FsOp.write) := by
  induction ps with
  | nil => intro acc p h; simpa using h
  | cons q qs ih =>
      intro acc p h
      simp only [List.map_cons, List.foldl_cons]
      apply ih
      have hacc : ∀ x, x ∈ acc → x ∈ applyFsOp acc (.write q) := by
        intro x hx
        by_cases hqa : q ∈ acc
        · simpa only [applyFsOp, if_pos hqa] using hx
        · simp only [applyFsOp, if_neg hqa]
          exact List.mem_append_left _ hx
      have hq : q ∈ applyFsOp acc (.write q) := by
        by_cases hqa : q ∈ acc
        · simpa only [applyFsOp, if_pos hqa] using hqa
        · simp only [applyFsOp, if_neg hqa]
          exact List.mem_append_right _ (List.mem_singleton.mpr rfl)
      rcases h with h | h
      · exact Or.inl (hacc p h)
      · rcases List.mem_cons.mp h with h | h
        · exact Or.inl (h ▸ hq)
        · exact Or.inr h

/-- A segment clip path is never the input path (it is strictly longer). -/
theorem segmentPath_ne_inputPath (i : ℕ) : segmentPath i ≠ inputPath := by
  intro h
  have hl := congrArg String.length h
  rw [segmentPath, inputPath, String.length_append, String.length_append] at hl
  have h8 : ("segment-" : String).length = 8 := rfl
  have h4 : (".mp3" : String).length = 4 := rfl
  have h9 : ("input.mp3" : String).length = 9 := rfl
  omega

/-- Claim C7, amended: on every exit path, the only temporary file removed
is the input file.  A failed duration probe leaves the temp directory
empty (only the input had been written); a successful split leaves every
extracted segment clip file on disk — whether the subsequent transcription
loop succeeds (`svcOk = true`) or the run aborts on a failed segment
(`svcOk = false`) — and the input file is always gone. -/
theorem C7_amended (duration : ℚ) (svcOk : Bool) :
    runFs (transcribeAudioTrace duration false svcOk) = [] ∧
    inputPath ∉ runFs (transcribeAudioTrace duration true svcOk) ∧
    ∀ i, i < numSegments duration (SEGMENT_DURATION / 1000) →
      segmentPath i ∈ runFs (transcribeAudioTrace duration true svcOk) := by
  have hrun : runFs (transcribeAudioTrace duration true svcOk) =
      (List.foldl applyFsOp [inputPath]
        (((List.range (numSegments duration (SEGMENT_DURATION / 1000))).map
          segmentPath).map FsOp.write)).filter (· ≠ inputPath) := by
    simp only [transcribeAudioTrace, splitAudioFileTrace, if_true, runFs,
      List.foldl_cons, List.foldl_append, List.foldl_nil, List.map_map]
    rfl
  refine ⟨rfl, ?_, ?_⟩
  · intro hmem
    rw [hrun] at hmem
    have h2 := (List.mem_filter.mp hmem).2
    simp at h2
  · intro i hi
    rw [hrun]
    refine List.mem_filter.mpr ⟨?_, by simpa using segmentPath_ne_inputPath i⟩
    apply mem_foldl_writes
    right
    exact List.mem_map_of_mem _ (List.mem_range.mpr hi)

/-- Witness for C7 at a concrete duration (1200 s, two segments). -/
theorem C7_amended_witness :
    runFs (transcribeAudioTrace 1200 false false) = [] ∧
    inputPath ∉ runFs (transcribeAudioTrace 1200 true false) ∧
    segmentPath 1 ∈ runFs (transcribeAudioTrace 1200 true false) := by
  obtain ⟨h1, h2, h3⟩ := C7_amended 1200 false
  refine ⟨h1, h2, h3 1 ?_⟩
  rw [show SEGMENT_DURATION / 1000 = 600 by norm_num [SEGMENT_DURATION],
    numSegments_eq 1200 600 2 (by norm_num) (by norm_num) (by norm_num)]
  omega

/-- If some segment index in range fails for every prompt, the per-segment
loop returns that (or an earlier) error. -/
theorem loop_error_of_failing {α : Type} (svc : Req → Except TrError α)
    (extractText : α → String) (prompt : String) (j : ℕ) :
    ∀ (descs : List SegmentDescriptor) (i : ℕ) (prev : Option α),
      i ≤ j → j < i + descs.length →
      (∀ p, ∃ e, svc (.segment j p) = .error e) →
      ∃ e, (transcribeSegmentsLoop svc extractText prompt i prev descs).1 = .error e := by
  intro descs
  induction descs with
  | nil => intro i prev h1 h2 _; simp at h2; omega
  | cons d rest ih =>
      intro i prev h1 h2 h3
      simp only [transcribeSegmentsLoop]
      cases hsvc : svc (.segment i (segmentPromptFor extractText prompt i prev)) with
      | error e => exact ⟨e, by simp only [hsvc]⟩
      | ok payload =>
          have hij : i ≠ j := by
            intro hij
            subst hij
            obtain ⟨e, he⟩ := h3 (segmentPromptFor extractText prompt i prev)
            rw [hsvc] at he
            exact Except.noConfusion he
          obtain ⟨e, he⟩ := ih (i + 1) (some payload) (by omega)
            (by simp only [List.length_cons] at h2; omega) h3
          refine ⟨e, ?_⟩
          simp only [hsvc, he]
          rfl

/-- If the per-segment loop succeeds, every segment index in range
contributed an element of the output list that the service returned for
some prompt. -/
theorem loop_ok_mem {α : Type} (svc : Req → Except TrError α)
    (extractText : α → String) (prompt : String) (j : ℕ) :
    ∀ (descs : List SegmentDescriptor) (i : ℕ) (prev : Option α) (l : List α),
      (transcribeSegmentsLoop svc extractText prompt i prev descs).1 = .ok l →
      i ≤ j → j < i + descs.length →
      ∃ t ∈ l, ∃ p, svc (.segment j p) = .ok t := by
  intro descs
  induction descs with
  | nil => intro i prev l _ h1 h2; simp at h2; omega
  | cons d rest ih =>
      intro i prev l hok h1 h2
      simp only [transcribeSegmentsLoop] at hok
      cases hsvc : svc (.segment i (segmentPromptFor extractText prompt i prev)) with
      | error e =>
          simp only [hsvc] at hok
          exact Except.noConfusion hok
      | ok payload =>
          simp only [hsvc] at hok
          cases hrest : (transcribeSegmentsLoop svc extractText prompt (i + 1)
              (some payload) rest).1 with
          | error e =>
              simp only [hrest] at hok
              exact Except.noConfusion hok
          | ok l' =>
              simp only [hrest] at hok
              have hl : l = payload :: l' := by
                simpa using hok.symm
              rcases Nat.eq_or_lt_of_le h1 with hij | hij
              · exact ⟨payload, by rw [hl]; exact List.mem_cons_self _ _,
                  segmentPromptFor extractText prompt i prev, by rw [← hij]; exact hsvc⟩
              · obtain ⟨t, ht, p, hp⟩ := ih (i + 1) (some payload) l' hrest hij
                  (by simp only [List.length_cons] at h2; omega)
                exact ⟨t, by rw [hl]; exact List.mem_cons_of_mem _ ht, p, hp⟩

/-- A response with an empty `segments` array makes the JSON combining
loop throw (return `none`). -/
theorem combineJSONAux_none_of_empty :
    ∀ (ts : List TranscriptionResponse) (off : ℚ) (acc : TranscriptionResponse),
      (∃ t ∈ ts, t.segments = []) → combineJSONAux off acc ts = none := by
  intro ts
  induction ts with
  | nil => intro off acc h; simp at h
  | cons d rest ih =>
      intro off acc h
      simp only [combineJSONAux]
      rcases h with ⟨t, ht, hseg⟩
      rcases List.mem_cons.mp ht with ht | ht
      · subst ht
        rw [hseg]
        rfl
      · cases hl : d.segments.getLast? with
        | none => rfl
        | some lastSeg => exact ih _ _ ⟨t, ht, hseg⟩

/-- Claim C8: a failing segment aborts the whole run.  For the structured
shape, if some segment index in range fails for every prompt, or succeeds
only with responses whose `segments` array is empty (a payload that cannot
be used as the expected shape), then no stitched transcript is produced.
For the cue-track shape a failing segment makes the run end in that
error. -/
theorem C8_confirmed :
    (∀ (svc : Req → Except TrError TranscriptionResponse) (byteLength : ℕ)
        (duration : ℚ) (prompt : String),
      MAX_FILE_SIZE < byteLength →
      ((∃ j, j < (splitAudioDescriptors duration (SEGMENT_DURATION / 1000)
            (SEGMENT_OVERLAP / 1000)).length ∧
          ∀ p, ∃ e, svc (.segment j p) = .error e) ∨
        (∃ j, j < (splitAudioDescriptors duration (SEGMENT_DURATION / 1000)
            (SEGMENT_OVERLAP / 1000)).length ∧
          ∀ p r, svc (.segment j p) = .ok r → r.segments = [])) →
      ∀ out, (transcribeAudioJSON svc byteLength duration prompt).1 ≠ .ok (some out)) ∧
    (∀ (svc : Req → Except TrError (List Cue)) (byteLength : ℕ)
        (duration : ℚ) (prompt : String),
      MAX_FILE_SIZE < byteLength →
      (∃ j, j < (splitAudioDescriptors duration (SEGMENT_DURATION / 1000)
          (SEGMENT_OVERLAP / 1000)).length ∧
        ∀ p, ∃ e, svc (.segment j p) = .error e) →
      ∃ e, (transcribeAudioVTT svc byteLength duration prompt).1 = .error e) := by
  constructor
  · intro svc byteLength duration prompt hbig hfail out
    have hns : ¬ byteLength ≤ MAX_FILE_SIZE := by omega
    simp only [transcribeAudioJSON, if_neg hns]
    rcases hfail with ⟨j, hj, herr⟩ | ⟨j, hj, hempty⟩
    · obtain ⟨e, he⟩ :=
        loop_error_of_failing svc TranscriptionResponse.text prompt j
          (splitAudioDescriptors duration (SEGMENT_DURATION / 1000)
            (SEGMENT_OVERLAP / 1000)) 0 none (Nat.zero_le j) (by omega) herr
      simp [he]
    · cases hloop : (transcribeSegmentsLoop svc TranscriptionResponse.text prompt 0 none
          (splitAudioDescriptors duration (SEGMENT_DURATION / 1000)
            (SEGMENT_OVERLAP / 1000))).1 with
      | error e => simp [hloop]
      | ok l =>
          obtain ⟨t, ht, p, hp⟩ :=
            loop_ok_mem svc TranscriptionResponse.text prompt j
              (splitAudioDescriptors duration (SEGMENT_DURATION / 1000)
                (SEGMENT_OVERLAP / 1000)) 0 none l hloop
              (Nat.zero_le j) (by omega)
          have hnone : combineJSONTranscriptions l = none := by
            rw [combineJSONTranscriptions,
              combineJSONAux_none_of_empty l 0 ⟨"", [], []⟩ ⟨t, ht, hempty p t hp⟩]
            rfl
          simp [hloop, hnone]
  · intro svc byteLength duration prompt hbig hfail
    have hns : ¬ byteLength ≤ MAX_FILE_SIZE := by omega
    simp only [transcribeAudioVTT, if_neg hns]
    rcases hfail with ⟨j, hj, herr⟩
    obtain ⟨e, he⟩ :=
      loop_error_of_failing svc extractTextFromVTT prompt j
        (splitAudioDescriptors duration (SEGMENT_DURATION / 1000)
          (SEGMENT_OVERLAP / 1000)) 0 none (Nat.zero_le j) (by omega) herr
    exact ⟨e, by simp [he]⟩

/-- Witness for C8: a service that always fails with an authentication
error, on a 25 MB + 1 byte buffer of 1200 seconds. -/
theorem C8_witness :
    (∀ out, (transcribeAudioJSON (fun _ => .error .authFailed)
        (MAX_FILE_SIZE + 1) 1200 "p").1 ≠ .ok (some out)) ∧
    ∃ e, (transcribeAudioVTT (fun _ => .error .authFailed)
        (MAX_FILE_SIZE + 1) 1200 "p").1 = .error e := by
  have hlen : (splitAudioDescriptors 1200 (SEGMENT_DURATION / 1000)
      (SEGMENT_OVERLAP / 1000)).length = 2 := by
    rw [splitAudioDescriptors, List.length_map, List.length_range,
      show SEGMENT_DURATION / 1000 = 600 by norm_num [SEGMENT_DURATION],
      numSegments_eq 1200 600 2 (by norm_num) (by norm_num) (by norm_num)]
  constructor
  · exact C8_confirmed.1 _ _ _ _ (by omega)
      (Or.inl ⟨0, by rw [hlen]; omega, fun p => ⟨.authFailed, rfl⟩⟩)
  · exact C8_confirmed.2 _ _ _ _ (by omega)
      ⟨0, by rw [hlen]; omega, fun p => ⟨.authFailed, rfl⟩⟩

/-- In a clip whose cues are pairwise non-overlapping in order (adjacent
condition) and have `start ≤ end`, every earlier cue ends before every
later cue starts. -/
theorem wf_nonoverlap_pairwise (t : List Cue)
    (hb : ∀ c ∈ t, c.startT ≤ c.endT)
    (hc : t.Chain' (fun a b => a.endT ≤ b.startT)) :
    t.Pairwise (fun a b => a.endT ≤ b.startT) := by
  induction t with
  | nil => exact List.Pairwise.nil
  | cons a t ih =>
      have hpt := ih (fun c hcm => hb c (List.mem_cons_of_mem _ hcm)) hc.tail
      refine List.pairwise_cons.mpr ⟨?_, hpt⟩
      intro b hbm
      cases t with
      | nil => simp at hbm
      | cons hd tl =>
          have hah : a.endT ≤ hd.startT := (List.chain'_cons.mp hc).1
          rcases List.mem_cons.mp hbm with rfl | hbm'
          · exact hah
          · have h1 : hd.endT ≤ b.startT := (List.pairwise_cons.mp hpt).1 b hbm'
            have h2 : hd.startT ≤ hd.endT := hb hd (by simp)
            linarith

/-- Invariant of the VTT combining loop: given well-formed clips, the
emitted cues are pairwise ordered with non-overlapping ranges, and (for
loop positions after the first transcription) every emitted cue starts at
or after the current offset plus the overlap. -/
theorem combineVTTAux_mono (ts : List (List Cue)) :
    ∀ (i : ℕ) (off : ℚ), (∀ t ∈ ts, WellFormedClip t) →
      ((combineVTTAux i off ts).1.Pairwise
        (fun a b => a.startT ≤ b.startT ∧ a.endT ≤ b.startT) ∧
       ∀ c ∈ (combineVTTAux i off ts).1,
         (1 ≤ i → off + SEGMENT_OVERLAP / 1000 ≤ c.startT) ∧ c.startT ≤ c.endT) := by
  induction ts with
  | nil => intro i off _; simp [combineVTTAux]
  | cons t rest ih =>
      intro i off hWF
      have hWFt : WellFormedClip t := hWF t (List.mem_cons_self _ _)
      have hWFr : ∀ u ∈ rest, WellFormedClip u :=
        fun u hu => hWF u (List.mem_cons_of_mem _ hu)
      obtain ⟨ihp, ihm⟩ :=
        ih (i + 1) (off + (SEGMENT_DURATION / 1000 - SEGMENT_OVERLAP / 1000)) hWFr
      -- facts about the kept, shifted cues of the head transcription
      have hkept : ∀ c' ∈ (t.filter (keepVTTCue i off)).map (shiftCue off),
          (1 ≤ i → off + SEGMENT_OVERLAP / 1000 ≤ c'.startT) ∧
          c'.startT ≤ c'.endT ∧ c'.endT ≤ off + SEGMENT_DURATION / 1000 := by
        intro c' hc'
        obtain ⟨c, hcf, rfl⟩ := List.mem_map.mp hc'
        obtain ⟨hct, hckeep⟩ := List.mem_filter.mp hcf
        obtain ⟨hc0, hcse, hcend⟩ := hWFt.1 c hct
        refine ⟨?_, ?_, ?_⟩
        · intro hi
          have hne : i ≠ 0 := by omega
          rw [keepVTTCue_eq] at hckeep
          simp only [hne, decide_eq_true_eq, Bool.or_eq_true, decide_eq_false_iff_not,
            false_or] at hckeep
          show off + SEGMENT_OVERLAP / 1000 ≤ c.startT + off
          linarith
        · show c.startT + off ≤ c.endT + off
          linarith
        · show c.endT + off ≤ off + SEGMENT_DURATION / 1000
          linarith
      have hkeptp : ((t.filter (keepVTTCue i off)).map (shiftCue off)).Pairwise
          (fun a b => a.startT ≤ b.startT ∧ a.endT ≤ b.startT) := by
        rw [List.pairwise_map]
        have hpt : (t.filter (keepVTTCue i off)).Pairwise
            (fun a b => a.endT ≤ b.startT) :=
          (wf_nonoverlap_pairwise t (fun c hc => (hWFt.1 c hc).2.1) hWFt.2).sublist
            (List.filter_sublist t)
        refine hpt.imp_of_mem ?_
        intro a b ha hb hab
        have hase : a.startT ≤ a.endT :=
          (hWFt.1 a (List.mem_of_mem_filter ha)).2.1
        constructor
        · show a.startT + off ≤ b.startT + off
          linarith
        · show a.endT + off ≤ b.startT + off
          linarith
      constructor
      · simp only [combineVTTAux]
        rw [List.pairwise_append]
        refine ⟨hkeptp, ihp, ?_⟩
        intro a ha b hb
        have hae := (hkept a ha).2.2
        have hbs := (ihm b hb).1 (by omega)
        have hkey : off + SEGMENT_DURATION / 1000 =
            off + (SEGMENT_DURATION / 1000 - SEGMENT_OVERLAP / 1000) +
              SEGMENT_OVERLAP / 1000 := by ring
        have has := (hkept a ha).2.1
        constructor <;> linarith
      · simp only [combineVTTAux, List.mem_append]
        rintro c (hc | hc)
        · exact ⟨(hkept c hc).1, (hkept c hc).2.1⟩
        · have hOV : (0 : ℚ) ≤ SEGMENT_DURATION / 1000 - SEGMENT_OVERLAP / 1000 := by
            norm_num [SEGMENT_DURATION, SEGMENT_OVERLAP]
          have h1 := (ihm c hc).1 (by omega)
          exact ⟨fun _ => by linarith, (ihm c hc).2⟩

/-- Claim C4, amended: for the cue-track shape, if every per-clip track is
well formed (cues inside the clip window, `start ≤ end`, pairwise
non-overlapping in order), then in the stitched output every adjacent pair
satisfies `a.start ≤ b.start` and `a.end ≤ b.start` — monotone starts and
zero-overlap (epsilon 0).  (The structured shape violates this for three
or more segments; see the counterexample.) -/
theorem C4_amended (ts : List (List Cue)) (h : ∀ t ∈ ts, WellFormedClip t) :
    (combineVTTTranscriptions ts).Chain'
      (fun a b => a.startT ≤ b.startT ∧ a.endT ≤ b.startT) :=
  ((combineVTTAux_mono ts 0 0 h).1).chain'

/-- Witness for C4 on two concrete well-formed clips. -/
theorem C4_amended_witness :
    (combineVTTTranscriptions
        [[⟨0, 100, "a"⟩, ⟨150, 300, "b"⟩], [⟨30, 590, "c"⟩]]).Chain'
      (fun a b => a.startT ≤ b.startT ∧ a.endT ≤ b.startT) := by
  apply C4_amended
  intro t ht
  simp only [List.mem_cons, List.not_mem_nil, or_false] at ht
  rcases ht with rfl | rfl
  · constructor
    · intro c hc
      simp only [List.mem_cons, List.not_mem_nil, or_false] at hc
      rcases hc with rfl | rfl <;>
        norm_num [SEGMENT_DURATION]
    · simp only [List.chain'_cons, List.chain'_singleton, and_true]
      norm_num
  · constructor
    · intro c hc
      simp only [List.mem_cons, List.not_mem_nil, or_false] at hc
      rcases hc with rfl
      norm_num [SEGMENT_DURATION]
    · exact List.chain'_singleton _

set_option maxRecDepth 10000 in
/-- Decimal rendering of a natural number below 1000 has one digit below
10, two digits below 100 and three digits below 1000. -/
theorem reprLen : ∀ n : ℕ, n < 1000 →
    (toString n).length = if n < 10 then 1 else if n < 100 then 2 else 3 := by
  decide

/-- The `toFixed(3)`-and-pad step reproduces the two-digit seconds field
and the three millisecond digits of a well-formed timestamp. -/
theorem padStart6_toFixed3 (s ms : ℕ) (hs : s < 60) (hms : ms < 1000) :
    padStart6 (toString s ++ "." ++ pad3 ms) = padStart2 s ++ "." ++ pad3 ms := by
  have hlen3 : (pad3 ms).length = 3 := by
    have hr := reprLen ms hms
    by_cases h10 : ms < 10
    · rw [if_pos h10] at hr
      rw [pad3, if_pos h10, String.length_append, hr]
      rfl
    · rw [if_neg h10] at hr
      by_cases h100 : ms < 100
      · rw [if_pos h100] at hr
        rw [pad3, if_neg h10, if_pos h100, String.length_append, hr]
        rfl
      · rw [if_neg h100] at hr
        rw [pad3, if_neg h10, if_neg h100, hr]
  by_cases hs10 : s < 10
  · have hlenS : (toString s).length = 1 := by
      have hr := reprLen s (by omega)
      rwa [if_pos hs10] at hr
    have hL : (toString s ++ "." ++ pad3 ms).length = 5 := by
      rw [String.length_append, String.length_append, hlenS, hlen3]
      rfl
    rw [padStart6, if_pos (by rw [hL]; norm_num), hL,
      show (6 - 5 : ℕ) = 1 from rfl, List.replicate_one,
      show String.mk ['0'] = "0" from rfl,
      padStart2, if_pos (by rw [hlenS]; norm_num)]
    simp [String.append_assoc]
  · have hlenS : (toString s).length = 2 := by
      have hr := reprLen s (by omega)
      rwa [if_neg hs10, if_pos (by omega)] at hr
    have hL : (toString s ++ "." ++ pad3 ms).length = 6 := by
      rw [String.length_append, String.length_append, hlenS, hlen3]
      rfl
    rw [padStart6, if_neg (by rw [hL]; norm_num),
      padStart2, if_neg (by rw [hlenS]; norm_num)]

/-- Claim C10: formatting the parsed value of a well-formed
`HH:MM:SS.mmm` timestamp (two-digit hours, minutes below 60, seconds
below 60, three millisecond digits) reproduces the original string,
represented by its rendered fields `padStart2 h ++ ":" ++ padStart2 m ++
":" ++ padStart2 s ++ "." ++ pad3 ms`. -/
theorem C10_confirmed (h m s ms : ℕ) (hh : h ≤ 99) (hm : m < 60) (hs : s < 60)
    (hms : ms < 1000) :
    formatVTTTimestamp (parseVTTTimestamp h m ((s : ℚ) + ms / 1000)) =
      padStart2 h ++ ":" ++ padStart2 m ++ ":" ++ padStart2 s ++ "." ++ pad3 ms := by
  have hms1000 : (ms : ℚ) < 1000 := by exact_mod_cast hms
  have hms0 : (0 : ℚ) ≤ (ms : ℚ) / 1000 := by positivity
  have hmslt1 : (ms : ℚ) / 1000 < 1 := by
    rw [div_lt_one (by norm_num)]; exact hms1000
  have hs59 : (s : ℚ) ≤ 59 := by exact_mod_cast Nat.lt_succ_iff.mp hs
  have hm59 : (m : ℚ) ≤ 59 := by exact_mod_cast Nat.lt_succ_iff.mp hm
  have hs0 : (0 : ℚ) ≤ (s : ℚ) := by positivity
  have hm0 : (0 : ℚ) ≤ (m : ℚ) := by positivity
  have hh0 : (0 : ℚ) ≤ (h : ℚ) := by positivity
  set v : ℚ := parseVTTTimestamp h m ((s : ℚ) + ms / 1000) with hv
  have hvval : v = h * 3600 + m * 60 + ((s : ℚ) + ms / 1000) := by
    rw [hv, parseVTTTimestamp]
  have hv0 : 0 ≤ v := by rw [hvval]; positivity
  -- hours
  have hfloor1 : ⌊v / 3600⌋ = (h : ℤ) := by
    have hsplit : v / 3600 = ((m : ℚ) * 60 + s + ms / 1000) / 3600 + h := by
      rw [hvval]; field_simp; ring
    rw [hsplit, Int.floor_add_nat,
      Int.floor_eq_zero_iff.mpr ⟨by positivity, by rw [div_lt_one (by norm_num)]; linarith⟩,
      zero_add]
  have htrunc1 : jsTrunc (v / 3600) = (h : ℤ) := by
    rw [jsTrunc, if_pos (div_nonneg hv0 (by norm_num)), hfloor1]
  have hmod3600 : jsMod v 3600 = (m : ℚ) * 60 + s + ms / 1000 := by
    rw [jsMod, htrunc1, hvval]; push_cast; ring
  -- minutes
  have hfloor2 : ⌊jsMod v 3600 / 60⌋ = (m : ℤ) := by
    have hsplit : jsMod v 3600 / 60 = ((s : ℚ) + ms / 1000) / 60 + m := by
      rw [hmod3600]; field_simp; ring
    rw [hsplit, Int.floor_add_nat,
      Int.floor_eq_zero_iff.mpr ⟨by positivity, by rw [div_lt_one (by norm_num)]; linarith⟩,
      zero_add]
  -- remaining seconds
  have hfloor60 : ⌊v / 60⌋ = ((h * 60 + m : ℕ) : ℤ) := by
    have hsplit : v / 60 = ((s : ℚ) + ms / 1000) / 60 + (h * 60 + m : ℕ) := by
      rw [hvval]; push_cast; field_simp; ring
    rw [hsplit, Int.floor_add_nat,
      Int.floor_eq_zero_iff.mpr ⟨by positivity, by rw [div_lt_one (by norm_num)]; linarith⟩,
      zero_add]
  have htrunc60 : jsTrunc (v / 60) = ((h * 60 + m : ℕ) : ℤ) := by
    rw [jsTrunc, if_pos (div_nonneg hv0 (by norm_num)), hfloor60]
  have hmod60 : jsMod v 60 = (s : ℚ) + ms / 1000 := by
    rw [jsMod, htrunc60, hvval]; push_cast; ring
  -- toFixed(3)
  have hq1000 : ((s : ℚ) + ms / 1000) * 1000 = ((1000 * s + ms : ℕ) : ℚ) := by
    push_cast; field_simp; ring
  have hfix : toFixed3 ((s : ℚ) + ms / 1000) = toString s ++ "." ++ pad3 ms := by
    have hfl : ⌊((s : ℚ) + ms / 1000) * 1000 + 1 / 2⌋ = ((1000 * s + ms : ℕ) : ℤ) := by
      rw [hq1000, add_comm, Int.floor_add_nat,
        show ⌊(1 / 2 : ℚ)⌋ = 0 from Int.floor_eq_zero_iff.mpr
          ⟨by norm_num, by norm_num⟩, zero_add]
    have hn : (⌊((s : ℚ) + ms / 1000) * 1000 + 1 / 2⌋).toNat = 1000 * s + ms := by
      rw [hfl]; exact Int.toNat_natCast _
    simp only [toFixed3, hn]
    rw [show (1000 * s + ms) / 1000 = s by omega,
      show (1000 * s + ms) % 1000 = ms by omega]
  -- assemble
  simp only [formatVTTTimestamp]
  rw [hfloor1, hfloor2, Int.toNat_natCast, Int.toNat_natCast, hmod60, hfix,
    padStart6_toFixed3 s ms hs hms]
  simp only [String.append_assoc]

/-- Witness for C10 at the timestamp `01:02:03.045`. -/
theorem C10_witness :
    formatVTTTimestamp (parseVTTTimestamp ((1 : ℕ) : ℚ) ((2 : ℕ) : ℚ)
        (((3 : ℕ) : ℚ) + ((45 : ℕ) : ℚ) / 1000)) =
      padStart2 1 ++ ":" ++ padStart2 2 ++ ":" ++ padStart2 3 ++ "." ++ pad3 45 :=
  C10_confirmed 1 2 3 45 (by norm_num) (by norm_num) (by norm_num) (by norm_num)

/-- Loop-iteration characterisation: descriptor `i` exists exactly when
`i * segLen < duration`. -/
theorem lt_numSegments_iff (d L : ℚ) (hL : 0 < L) (i : ℕ) :
    i < numSegments d L ↔ (i : ℚ) * L < d := by
  rw [numSegments, Int.lt_toNat, Int.lt_ceil, lt_div_iff₀ hL]
  push_cast
  rfl

/-- The descriptor list has one entry per loop iteration. -/
theorem splitAudioDescriptors_length (d L o : ℚ) :
    (splitAudioDescriptors d L o).length = numSegments d L := by
  rw [splitAudioDescriptors, List.length_map, List.length_range]

/-- Index formula for the descriptor list. -/
theorem splitAudioDescriptors_get (d L o : ℚ) (i : ℕ)
    (hi : i < (splitAudioDescriptors d L o).length) :
    (splitAudioDescriptors d L o).get ⟨i, hi⟩ =
      ⟨max 0 ((i : ℚ) * L - o), min L (d - max 0 ((i : ℚ) * L - o))⟩ := by
  rw [List.get_eq_getElem]
  simp [splitAudioDescriptors]

/-- Claim C3, amended.  For every valid policy: descriptor start offsets
are strictly increasing; every descriptor interval is nonempty and lies
inside `[0, totalDuration)`; the first two descriptors overlap by exactly
`overlap`; every later consecutive pair is exactly adjacent (end of one is
the start of the next, zero overlap); and a point `x ∈ [0, totalDuration)`
is covered by some descriptor exactly when there is a single segment or
`x < n * segLen - overlap` — so a terminal gap of up to `overlap` seconds
can remain uncovered when `totalDuration > n * segLen - overlap`. -/
theorem C3_amended (d L o : ℚ) (hd : 0 < d) (hL : 0 < L) (ho : 0 ≤ o)
    (hoL : o < L) :
    ((splitAudioDescriptors d L o).Pairwise
      (fun a b => a.startOffset < b.startOffset)) ∧
    (∀ sd ∈ splitAudioDescriptors d L o,
      0 ≤ sd.startOffset ∧ 0 < sd.length ∧ sd.startOffset + sd.length ≤ d) ∧
    (∀ h2 : 2 ≤ (splitAudioDescriptors d L o).length,
      ((splitAudioDescriptors d L o).get ⟨0, by omega⟩).startOffset +
          ((splitAudioDescriptors d L o).get ⟨0, by omega⟩).length -
          ((splitAudioDescriptors d L o).get ⟨1, by omega⟩).startOffset = o) ∧
    (∀ (i : ℕ) (hi1 : i + 1 < (splitAudioDescriptors d L o).length), 0 < i →
      ((splitAudioDescriptors d L o).get ⟨i, by omega⟩).startOffset +
          ((splitAudioDescriptors d L o).get ⟨i, by omega⟩).length =
        ((splitAudioDescriptors d L o).get ⟨i + 1, hi1⟩).startOffset) ∧
    (∀ x : ℚ, 0 ≤ x → x < d →
      (coveredBy (splitAudioDescriptors d L o) x ↔
        (numSegments d L = 1 ∨ x < (numSegments d L : ℚ) * L - o))) := by
  have hiff := lt_numSegments_iff d L hL
  have hn1 : 1 ≤ numSegments d L := by
    have := (hiff 0).mpr (by rw [Nat.cast_zero, zero_mul]; exact hd)
    omega
  have hstart0 : max 0 (((0 : ℕ) : ℚ) * L - o) = 0 := by
    rw [Nat.cast_zero, zero_mul, zero_sub]
    exact max_eq_left (by linarith)
  have hstart1 : max 0 (((1 : ℕ) : ℚ) * L - o) = L - o := by
    rw [Nat.cast_one, one_mul]
    exact max_eq_right (by linarith)
  have hstartpos : ∀ i : ℕ, 1 ≤ i → max 0 ((i : ℚ) * L - o) = (i : ℚ) * L - o := by
    intro i hi
    apply max_eq_right
    have hi1 : (1 : ℚ) ≤ (i : ℚ) := by exact_mod_cast hi
    nlinarith
  have hstartle : ∀ i : ℕ, max 0 ((i : ℚ) * L - o) ≤ (i : ℚ) * L := by
    intro i
    apply max_le
    · positivity
    · linarith
  refine ⟨?_, ?_, ?_, ?_, ?_⟩
  · -- strictly increasing starts
    rw [splitAudioDescriptors]
    rw [List.pairwise_map]
    refine (List.pairwise_lt_range _).imp ?_
    intro i j hij
    show max 0 ((i : ℚ) * L - o) < max 0 ((j : ℚ) * L - o)
    have hj1 : 1 ≤ j := by omega
    rw [hstartpos j hj1]
    have hjq : (1 : ℚ) ≤ (j : ℚ) := by exact_mod_cast hj1
    rcases Nat.eq_zero_or_pos i with hi0 | hi0
    · subst hi0
      rw [hstart0]
      nlinarith [mul_le_mul_of_nonneg_right hjq hL.le]
    · rw [hstartpos i hi0]
      have hij' : (i : ℚ) < (j : ℚ) := by exact_mod_cast hij
      nlinarith
  · -- every interval inside [0, d)
    intro sd hsd
    rw [splitAudioDescriptors] at hsd
    obtain ⟨i, hiR, rfl⟩ := List.mem_map.mp hsd
    have hiL : (i : ℚ) * L < d := (hiff i).mp (List.mem_range.mp hiR)
    have hstd : max 0 ((i : ℚ) * L - o) < d := lt_of_le_of_lt (hstartle i) hiL
    refine ⟨le_max_left _ _, lt_min hL (by linarith), ?_⟩
    have := min_le_right L (d - max 0 ((i : ℚ) * L - o))
    show max 0 ((i : ℚ) * L - o) + min L (d - max 0 ((i : ℚ) * L - o)) ≤ d
    linarith
  · -- first pair overlaps by exactly `o`
    intro h2
    have hn2 : 2 ≤ numSegments d L := by
      rw [← splitAudioDescriptors_length d L o]; exact h2
    have hLd : L < d := by
      have h1n := (hiff 1).mp (by omega)
      rwa [Nat.cast_one, one_mul] at h1n
    rw [splitAudioDescriptors_get, splitAudioDescriptors_get]
    dsimp only
    rw [hstart0, hstart1, sub_zero, min_eq_left hLd.le]
    ring
  · -- later pairs exactly adjacent
    intro i hi1 hi0
    rw [splitAudioDescriptors_get, splitAudioDescriptors_get]
    have hin : i + 1 < numSegments d L := by
      rw [← splitAudioDescriptors_length d L o]; exact hi1
    have hi1L : ((i + 1 : ℕ) : ℚ) * L < d := (hiff (i + 1)).mp hin
    dsimp only
    rw [hstartpos i hi0, hstartpos (i + 1) (by omega)]
    have hmin : min L (d - ((i : ℚ) * L - o)) = L := by
      apply min_eq_left
      push_cast at hi1L
      linarith
    rw [hmin]
    push_cast
    ring
  · -- coverage characterisation
    intro x hx0 hxd
    constructor
    · rintro ⟨sd, hsd, hs1, hs2⟩
      rw [splitAudioDescriptors] at hsd
      obtain ⟨i, hiR, rfl⟩ := List.mem_map.mp hsd
      dsimp only at hs1 hs2
      have hiL : (i : ℚ) * L < d := (hiff i).mp (List.mem_range.mp hiR)
      by_cases hn1' : numSegments d L = 1
      · exact Or.inl hn1'
      · right
        have hn2 : 2 ≤ numSegments d L := by omega
        have hn2q : (2 : ℚ) ≤ (numSegments d L : ℚ) := by exact_mod_cast hn2
        rcases Nat.eq_zero_or_pos i with hi0 | hi0
        · subst hi0
          rw [hstart0, zero_add, sub_zero] at hs2
          have hxL : x < L := lt_of_lt_of_le hs2 (min_le_left _ _)
          nlinarith
        · have hin : i < numSegments d L := List.mem_range.mp hiR
          have hinq : ((i : ℚ) + 1) ≤ (numSegments d L : ℚ) := by
            have hi1n : i + 1 ≤ numSegments d L := hin
            exact_mod_cast hi1n
          rw [hstartpos i hi0] at hs2
          have hxb : x < (i : ℚ) * L - o + L := by
            have hmle := min_le_left L (d - ((i : ℚ) * L - o))
            linarith
          nlinarith
    · rintro (hn1' | hlt)
      · refine ⟨⟨max 0 (((0 : ℕ) : ℚ) * L - o),
            min L (d - max 0 (((0 : ℕ) : ℚ) * L - o))⟩, ?_, ?_, ?_⟩
        · rw [splitAudioDescriptors]
          exact List.mem_map_of_mem _ (List.mem_range.mpr (by omega))
        · rw [hstart0]; exact hx0
        · have hdL : d ≤ L := by
            by_contra hcon
            push_neg at hcon
            have h1n : 1 < numSegments d L :=
              (hiff 1).mpr (by rw [Nat.cast_one, one_mul]; exact hcon)
            omega
          rw [hstart0, sub_zero, min_eq_right hdL, zero_add]
          exact hxd
      · by_cases hxL : x < L
        · refine ⟨⟨max 0 (((0 : ℕ) : ℚ) * L - o),
              min L (d - max 0 (((0 : ℕ) : ℚ) * L - o))⟩, ?_, ?_, ?_⟩
          · rw [splitAudioDescriptors]
            exact List.mem_map_of_mem _ (List.mem_range.mpr (by omega))
          · rw [hstart0]; exact hx0
          · rw [hstart0, sub_zero, zero_add]
            exact lt_min hxL hxd
        · push_neg at hxL
          set k : ℕ := (⌊(x + o) / L⌋).toNat with hk
          have hfl0 : 0 ≤ ⌊(x + o) / L⌋ := by
            apply Int.floor_nonneg.mpr
            positivity
          have hkfl : (k : ℤ) = ⌊(x + o) / L⌋ := by
            rw [hk]; exact Int.toNat_of_nonneg hfl0
          have hkle : (k : ℚ) ≤ (x + o) / L := by
            have hle := Int.floor_le ((x + o) / L)
            rw [← hkfl] at hle
            exact_mod_cast hle
          have hklt : (x + o) / L < (k : ℚ) + 1 := by
            have hlt1 := Int.lt_floor_add_one ((x + o) / L)
            rw [← hkfl] at hlt1
            exact_mod_cast hlt1
          have hkLle : (k : ℚ) * L ≤ x + o := (le_div_iff₀ hL).mp hkle
          have hxlt : x + o < ((k : ℚ) + 1) * L := (div_lt_iff₀ hL).mp hklt
          have hk1 : 1 ≤ k := by
            have h1fl : (1 : ℤ) ≤ ⌊(x + o) / L⌋ := by
              apply Int.le_floor.mpr
              push_cast
              rw [le_div_iff₀ hL, one_mul]
              linarith
            omega
          have hkn : k < numSegments d L := by
            have hkq : (k : ℚ) * L < (numSegments d L : ℚ) * L := by linarith
            have hkq' : (k : ℚ) < (numSegments d L : ℚ) :=
              (mul_lt_mul_right hL).mp hkq
            exact_mod_cast hkq'
          refine ⟨⟨max 0 ((k : ℚ) * L - o), min L (d - max 0 ((k : ℚ) * L - o))⟩,
            ?_, ?_, ?_⟩
          · rw [splitAudioDescriptors]
            exact List.mem_map_of_mem _ (List.mem_range.mpr hkn)
          · dsimp only
            rw [hstartpos k hk1]
            linarith
          · dsimp only
            rw [hstartpos k hk1]
            rcases le_total L (d - ((k : ℚ) * L - o)) with hm | hm
            · rw [min_eq_left hm]
              nlinarith
            · rw [min_eq_right hm]
              linarith

/-- Witness for C3 at the policy `1190 / 600 / 20`: the point 1185 of
`[0, 1190)` is uncovered (the terminal gap), while 700 is covered. -/
theorem C3_amended_witness :
    ((0 : ℚ) < 1190 ∧ (0 : ℚ) < 600 ∧ (0 : ℚ) ≤ 20 ∧ (20 : ℚ) < 600) ∧
    ¬ coveredBy (splitAudioDescriptors 1190 600 20) 1185 ∧
    coveredBy (splitAudioDescriptors 1190 600 20) 700 := by
  have H := C3_amended 1190 600 20 (by norm_num) (by norm_num) (by norm_num)
    (by norm_num)
  have hcov := H.2.2.2.2
  have hn : numSegments 1190 600 = 2 :=
    numSegments_eq 1190 600 2 (by norm_num) (by norm_num) (by norm_num)
  refine ⟨⟨by norm_num, by norm_num, by norm_num, by norm_num⟩, ?_, ?_⟩
  · intro hc
    have hch := (hcov 1185 (by norm_num) (by norm_num)).mp hc
    rw [hn] at hch
    rcases hch with h1 | h1
    · exact absurd h1 (by norm_num)
    · norm_num at h1
  · exact (hcov 700 (by norm_num) (by norm_num)).mpr (Or.inr (by rw [hn]; norm_num))

/-- Witness for C9 at a concrete small buffer (0 bytes) and a concrete
large buffer. -/
theorem C9_witness :
    (transcribeAudioVTT (fun _ => .ok []) 0 0 "p" = (.ok [], [.whole "p"]) ∧
      transcribeAudioJSON (fun _ => .ok ⟨"", [], []⟩) 0 0 "p" =
        (.ok (some ⟨"", [], []⟩), [.whole "p"])) ∧
    Req.whole "p" ∉
      (transcribeAudioVTT (fun _ => .ok []) (MAX_FILE_SIZE + 1) 1200 "p").2 :=
  ⟨(C9_confirmed _ _ 0 0 "p").1 (by decide),
   (C9_confirmed _ (fun _ => .ok ⟨"", [], []⟩) (MAX_FILE_SIZE + 1) 1200 "p").2
     (by omega) "p"⟩

end TranscribeAudio
